import Mathlib

/- Shallow embedding of the ilox front end (src/scanner.rs, src/parser.rs,
   src/expr.rs).  Rust machine state is passed explicitly; every operation
   that can panic in Rust (Option::unwrap on None, string byte-slicing at a
   non-boundary, the f64 parse unwrap, the explicit panic in Parser::primary)
   returns an `Except Abort` value whose error constructor names the abort
   site.  f64 literal values are modelled as exact decimal rationals; every
   numeric literal evaluated in this development is a small integer, exactly
   representable in IEEE f64, where the model agrees with the Rust value and
   its Display formatting. -/

/-- Rust panics modelled as error values: which abort fired.
`charAccess` is `chars().nth(i).unwrap()` on `None`; `slice` is a string
byte-slice `&s[a..b]` whose bounds are out of range or not char boundaries;
`floatParse` is `parse::<f64>().unwrap()` on `Err`; `unwrapNone` is
`Option::unwrap` on `None` in the parser; `unexpectedToken` is the explicit
abort in `Parser::primary`.  `fuel` marks exhaustion of the recursion bound
our loop encodings carry; the bounds supplied at every call site exceed the
maximal possible iteration count, so `fuel` is unreachable. -/
inductive Abort where
  | charAccess
  | slice
  | floatParse
  | unwrapNone
  | unexpectedToken
  | fuel
deriving DecidableEq

deriving instance DecidableEq for Except

/-- TokenType from src/scanner.rs lines 45-94. -/
inductive TokenType where
  | LeftParen
  | RightParen
  | LeftBrace
  | RightBrace
  | Comma
  | Dot
  | Minus
  | Plus
  | Semicolon
  | Slash
  | Star
  | Bang
  | BangEqual
  | Equal
  | EqualEqual
  | Greater
  | GreaterEqual
  | Less
  | LessEqual
  | Identifier
  | String
  | Number
  | And
  | Class
  | Else
  | False
  | Fun
  | For
  | If
  | Nil
  | Or
  | Print
  | Return
  | Super
  | This
  | True
  | Var
  | While
  | Eof
deriving DecidableEq

/-- Literal from src/scanner.rs lines 96-101: `Number(f64)` is modelled as an
exact rational (see the file comment). -/
inductive Literal where
  | Number (value : Rat)
  | Str (value : String)
  | Nil
deriving DecidableEq

/-- Token from src/scanner.rs lines 103-109. -/
structure Token where
  token_type : TokenType
  lexeme : String
  line : Nat
  value : Option Literal
deriving DecidableEq

/-- ScannerError from src/scanner.rs lines 28-33. -/
structure ScannerError where
  line : Nat
  column : Nat
  message : String
deriving DecidableEq

/-- ScannerResult from src/scanner.rs lines 119-123. -/
inductive ScannerResult where
  | Token (t : Token)
  | Error (e : ScannerError)
deriving DecidableEq

/-- Scanner from src/scanner.rs lines 111-117.  The Rust `source : String` is
kept as its sequence of characters; its Rust `len()` (a byte count) is
`byteLen source` below. -/
structure Scanner where
  source : List Char
  current : Nat
  line : Nat
  start : Nat
  tokens : List ScannerResult
deriving DecidableEq

/-- Byte length of a Rust `String` holding these characters (`String::len`). -/
def byteLen (cs : List Char) : Nat := (cs.map Char.utf8Size).sum

/-- Drop the first `n` BYTES of a UTF-8 string, as Rust slicing addresses it;
`none` when `n` is out of range or falls inside a multi-byte character
(where Rust's `&s[a..b]` panics). -/
def dropBytes : List Char → Nat → Option (List Char)
  | s, 0 => some s
  | [], _ + 1 => none
  | c :: cs, n + 1 =>
    if c.utf8Size ≤ n + 1 then dropBytes cs (n + 1 - c.utf8Size) else none

/-- Take the first `n` BYTES, with the same boundary discipline as `dropBytes`. -/
def takeBytes : List Char → Nat → Option (List Char)
  | _, 0 => some []
  | [], _ + 1 => none
  | c :: cs, n + 1 =>
    if c.utf8Size ≤ n + 1 then (takeBytes cs (n + 1 - c.utf8Size)).map (c :: ·) else none

/-- Rust string slice `&s[a..b]` (byte indices): `none` exactly when Rust
would panic (out of range, reversed, or not a char boundary). -/
def sliceBytes (s : List Char) (a b : Nat) : Option (List Char) :=
  if a ≤ b then (dropBytes s a).bind (fun t => takeBytes t (b - a)) else none

/-- Rust `char::is_alphabetic`, which is Unicode-aware.  The model is exact on
ASCII and on the Latin-1 range U+0080..U+00FF (the alphabetic Latin-1 code
points are U+00AA, U+00B5, U+00BA and U+00C0..U+00FF minus the two signs
U+00D7, U+00F7); characters above U+00FF never occur in the sources this
development evaluates. -/
def rustIsAlphabetic (c : Char) : Bool :=
  c.isAlpha ||
    (decide (0xC0 ≤ c.toNat) && decide (c.toNat ≤ 0xFF) &&
      !decide (c.toNat = 0xD7) && !decide (c.toNat = 0xF7)) ||
    decide (c.toNat = 0xAA) || decide (c.toNat = 0xB5) || decide (c.toNat = 0xBA)

/-- Digit string to the natural number it denotes (most significant first). -/
def digitsToNat (ds : List Char) : Nat := ds.foldl (fun n c => 10 * n + (c.toNat - 48)) 0

/-- Rust `str::parse::<f64>` (`f64::from_str`), modelled on its accepting
grammar `sign? (digits (. digits?)? | . digits) ((e|E) sign? digits)?` with
the value taken as the exact decimal rational.  The `inf`/`nan` word forms
cannot arise from the scanner (every span it parses starts with a digit) and
are not modelled.  Returns `none` exactly when Rust returns `Err`. -/
def rustParseF64 (cs : List Char) : Option Rat :=
  let sgn : Int := if cs.head? = some '-' then -1 else 1
  let cs1 := if cs.head? = some '+' || cs.head? = some '-' then cs.drop 1 else cs
  let ip := cs1.takeWhile Char.isDigit
  let cs2 := cs1.drop ip.length
  let fp := if cs2.head? = some '.' then (cs2.drop 1).takeWhile Char.isDigit else []
  let cs3 := if cs2.head? = some '.' then (cs2.drop 1).drop fp.length else cs2
  if ip.isEmpty && fp.isEmpty then none
  else
    let mantNum : Int := sgn * (digitsToNat ip * 10 ^ fp.length + digitsToNat fp : Nat)
    let mantDen : Nat := 10 ^ fp.length
    if cs3.isEmpty then some (mkRat mantNum mantDen)
    else if cs3.head? = some 'e' || cs3.head? = some 'E' then
      let t := cs3.drop 1
      let esgn := !(t.head? = some '-')
      let t1 := if t.head? = some '+' || t.head? = some '-' then t.drop 1 else t
      let ed := t1.takeWhile Char.isDigit
      if ed.isEmpty || !(t1.drop ed.length).isEmpty then none
      else
        let k := digitsToNat ed
        some (if esgn then mkRat (mantNum * 10 ^ k) mantDen
              else mkRat mantNum (mantDen * 10 ^ k))
    else none

/-- Rust `Display` ({}) formatting of an f64, on the values the scanner can
produce: a terminating decimal prints as its shortest decimal form, an
integer without any decimal point.  (Rust prints the shortest string that
round-trips; for the terminating decimals produced by the scanner's literal
grammar that string is this decimal form.)  The `none` fallback is
unreachable for scanner-produced values, whose denominators divide a power
of ten. -/
def displayNumber (q : Rat) : String :=
  match (List.range 40).find? (fun k => decide (10 ^ k % q.den = 0)) with
  | some k =>
    if k = 0 then toString q.num
    else
      let total := q.num.natAbs * (10 ^ k / q.den)
      let fdigits := toString (total % 10 ^ k)
      let pad := String.mk (List.replicate (k - fdigits.length) (Char.ofNat 48))
      (if q.num < 0 then "-" else "") ++ toString (total / 10 ^ k) ++ "." ++ pad ++ fdigits
  | none => toString q.num ++ "/" ++ toString q.den

/-- Display of a literal value, as the AstPrinter's {} formatting shows it:
numbers by `displayNumber`, strings as their raw text. -/
def Literal.display : Literal → String
  | .Number q => displayNumber q
  | .Str s => s
  | .Nil => "nil"

/-- KEYWORDS map from src/scanner.rs lines 5-26. -/
def KEYWORDS (s : String) : Option TokenType :=
  if s = "and" then some .And
  else if s = "class" then some .Class
  else if s = "else" then some .Else
  else if s = "false" then some .False
  else if s = "fun" then some .Fun
  else if s = "for" then some .For
  else if s = "if" then some .If
  else if s = "nil" then some .Nil
  else if s = "or" then some .Or
  else if s = "print" then some .Print
  else if s = "return" then some .Return
  else if s = "super" then some .Super
  else if s = "this" then some .This
  else if s = "true" then some .True
  else if s = "var" then some .Var
  else if s = "while" then some .While
  else none

/-- Scanner::new (src/scanner.rs lines 126-134). -/
def Scanner.new (source : List Char) : Scanner :=
  { source := source, current := 0, line := 1, start := 0, tokens := [] }

/-- Scanner::is_at_end (lines 310-312): `self.current >= self.source.len()`.
Note `len()` counts BYTES while `current` counts characters advanced. -/
def Scanner.is_at_end (s : Scanner) : Bool := decide (byteLen s.source ≤ s.current)

/-- Scanner::advance (lines 314-318): `chars().nth(current).unwrap()`, then
`current += 1`; the unwrap panics when no character is left. -/
def Scanner.advance (s : Scanner) : Except Abort (Char × Scanner) :=
  match s.source.get? s.current with
  | some c => .ok (c, { s with current := s.current + 1 })
  | none => .error .charAccess

/-- Scanner::peek (lines 279-284): `'\0'` at end, else
`chars().nth(current).unwrap()` (which can panic when `is_at_end` is false
but the char cursor is past the last character). -/
def Scanner.peek (s : Scanner) : Except Abort Char :=
  if s.is_at_end then .ok (Char.ofNat 0)
  else
    match s.source.get? s.current with
    | some c => .ok c
    | none => .error .charAccess

/-- Scanner::match_next (lines 286-297). -/
def Scanner.match_next (s : Scanner) (c : Char) : Except Abort (Bool × Scanner) :=
  if s.is_at_end then .ok (false, s)
  else
    match s.source.get? s.current with
    | none => .error .charAccess
    | some c2 =>
      if c2 = c then .ok (true, { s with current := s.current + 1 })
      else .ok (false, s)

/-- Scanner::emit (lines 299-308): lexeme is the byte-slice
`source[start..current]`. -/
def Scanner.emit (s : Scanner) (token_type : TokenType) (value : Option Literal) :
    Except Abort Scanner :=
  match sliceBytes s.source s.start s.current with
  | none => .error .slice
  | some lexeme =>
    .ok { s with tokens := s.tokens ++
      [.Token { token_type := token_type, lexeme := String.mk lexeme, line := s.line,
                value := value }] }

/-- Scanner::emit_error (lines 225-231): the `column` field is set to
`self.current`, the absolute character cursor. -/
def Scanner.emit_error (s : Scanner) (message : String) : Scanner :=
  { s with tokens := s.tokens ++
      [.Error { line := s.line, column := s.current, message := message }] }

/-- The digit-consuming loop `while self.peek().is_digit(10) { self.advance(); }`
of Scanner::scan_number (lines 234-236 and 241-243), written with an explicit
recursion bound (see `Abort.fuel`). -/
def Scanner.digits_loop : Nat → Scanner → Except Abort Scanner
  | 0, _ => .error .fuel
  | fuel + 1, s =>
    if s.is_at_end then .ok s
    else
      match s.source.get? s.current with
      | none => .error .charAccess
      | some c =>
        if c.isDigit then Scanner.digits_loop fuel { s with current := s.current + 1 }
        else .ok s

/-- The tail of Scanner::scan_number (lines 246-249): slice, parse as f64
(unwrap), emit. -/
def Scanner.number_finish (s : Scanner) : Except Abort Scanner :=
  match sliceBytes s.source s.start s.current with
  | none => .error .slice
  | some span =>
    match rustParseF64 span with
    | none => .error .floatParse
    | some v => s.emit .Number (some (.Number v))

/-- Scanner::scan_number (lines 233-250).  Note there is no look-ahead after
the `.`: a dot following the digit run is consumed unconditionally. -/
def Scanner.scan_number (s : Scanner) : Except Abort Scanner :=
  match Scanner.digits_loop (s.source.length + 1) s with
  | .error a => .error a
  | .ok s1 =>
    match s1.peek with
    | .error a => .error a
    | .ok c =>
      if c = '.' then
        match s1.advance with
        | .error a => .error a
        | .ok (_, s2) =>
          match Scanner.digits_loop (s2.source.length + 1) s2 with
          | .error a => .error a
          | .ok s3 => Scanner.number_finish s3
      else Scanner.number_finish s1

/-- The loop of Scanner::scan_string (lines 253-258). -/
def Scanner.string_loop : Nat → Scanner → Except Abort Scanner
  | 0, _ => .error .fuel
  | fuel + 1, s =>
    if s.is_at_end then .ok s
    else
      match s.source.get? s.current with
      | none => .error .charAccess
      | some c =>
        if c = '"' then .ok s
        else if c = '\n' then
          Scanner.string_loop fuel { s with current := s.current + 1, line := s.line + 1 }
        else Scanner.string_loop fuel { s with current := s.current + 1 }

/-- Scanner::scan_string (lines 252-267). -/
def Scanner.scan_string (s : Scanner) : Except Abort Scanner :=
  match Scanner.string_loop (s.source.length + 1) s with
  | .error a => .error a
  | .ok s1 =>
    if s1.is_at_end then .ok (s1.emit_error "Unterminated string")
    else
      match s1.source.get? s1.current with
      | none => .error .charAccess
      | some _ =>
        let s2 := { s1 with current := s1.current + 1 }
        match sliceBytes s2.source (s2.start + 1) (s2.current - 1) with
        | none => .error .slice
        | some value => s2.emit .String (some (.Str (String.mk value)))

/-- The comment loop `while self.peek() != '\n' { self.advance(); }` of
Scanner::scan_slash (lines 271-273).  There is no end-of-input test: at end
`peek` yields `'\0'` (which is not `'\n'`) and the body then advances past
the end, where the unwrap panics. -/
def Scanner.comment_loop : Nat → Scanner → Except Abort Scanner
  | 0, _ => .error .fuel
  | fuel + 1, s =>
    if s.is_at_end then
      match s.source.get? s.current with
      | none => .error .charAccess
      | some _ => Scanner.comment_loop fuel { s with current := s.current + 1 }
    else
      match s.source.get? s.current with
      | none => .error .charAccess
      | some c =>
        if c = '\n' then .ok s
        else Scanner.comment_loop fuel { s with current := s.current + 1 }

/-- Scanner::scan_slash (lines 269-277). -/
def Scanner.scan_slash (s : Scanner) : Except Abort Scanner :=
  match s.match_next '/' with
  | .error a => .error a
  | .ok (true, s1) => Scanner.comment_loop (s1.source.length + 2) s1
  | .ok (false, s1) => s1.emit .Slash none

/-- The identifier loop of Scanner::scan_identifier_or_keyword (lines 213-215). -/
def Scanner.ident_loop : Nat → Scanner → Except Abort Scanner
  | 0, _ => .error .fuel
  | fuel + 1, s =>
    if s.is_at_end then .ok s
    else
      match s.source.get? s.current with
      | none => .error .charAccess
      | some c =>
        if rustIsAlphabetic c || c.isDigit || c = '_' then
          Scanner.ident_loop fuel { s with current := s.current + 1 }
        else .ok s

/-- Scanner::scan_identifier_or_keyword (lines 212-223). -/
def Scanner.scan_identifier_or_keyword (s : Scanner) : Except Abort Scanner :=
  match Scanner.ident_loop (s.source.length + 1) s with
  | .error a => .error a
  | .ok s1 =>
    match sliceBytes s1.source s1.start s1.current with
    | none => .error .slice
    | some value =>
      match KEYWORDS (String.mk value) with
      | some tt => s1.emit tt none
      | none => s1.emit .Identifier (some (.Str (String.mk value)))

/-- The `!`, `<`, `>`, `=` arms of Scanner::scan_token (lines 166-197): fuse
with a following `=` to the compound kind, else the plain kind. -/
def Scanner.two_char (s : Scanner) (compound plain : TokenType) : Except Abort Scanner :=
  match s.match_next '=' with
  | .error a => .error a
  | .ok (true, s1) => s1.emit compound none
  | .ok (false, s1) => s1.emit plain none

/-- Scanner::scan_token (lines 152-210). -/
def Scanner.scan_token (s : Scanner) : Except Abort Scanner :=
  match s.advance with
  | .error a => .error a
  | .ok (c, s1) =>
    if c = '(' then s1.emit .LeftParen none
    else if c = ')' then s1.emit .RightParen none
    else if c = '\x7b' then s1.emit .LeftBrace none
    else if c = '\x7d' then s1.emit .RightBrace none
    else if c = ',' then s1.emit .Comma none
    else if c = '.' then s1.emit .Dot none
    else if c = '-' then s1.emit .Minus none
    else if c = '+' then s1.emit .Plus none
    else if c = ';' then s1.emit .Semicolon none
    else if c = '*' then s1.emit .Star none
    else if c = '!' then s1.two_char .BangEqual .Bang
    else if c = '<' then s1.two_char .LessEqual .Less
    else if c = '>' then s1.two_char .GreaterEqual .Greater
    else if c = '=' then s1.two_char .EqualEqual .Equal
    else if c = '/' then s1.scan_slash
    else if c = '"' then s1.scan_string
    else if c = ' ' then .ok s1
    else if c = '\r' then .ok s1
    else if c = '\t' then .ok s1
    else if c = '\n' then .ok { s1 with line := s1.line + 1 }
    else if c.isDigit then s1.scan_number
    else if rustIsAlphabetic c then s1.scan_identifier_or_keyword
    else
      .ok (s1.emit_error ("Unexpected character " ++
        String.mk [Char.ofNat 39, c, Char.ofNat 39]))

/-- The `while !self.is_at_end()` loop of Scanner::scan_tokens (lines 137-140):
reset `start`, scan one token, repeat. -/
def Scanner.scan_loop : Nat → Scanner → Except Abort Scanner
  | 0, _ => .error .fuel
  | fuel + 1, s =>
    if s.is_at_end then .ok s
    else
      match Scanner.scan_token { s with start := s.current } with
      | .error a => .error a
      | .ok s1 => Scanner.scan_loop fuel s1

/-- Scanner::scan_tokens (lines 136-150): run the loop, then append the
terminal EOF token.  Each loop iteration advances `current` by at least one,
so the bound `byteLen source + 1` always suffices. -/
def Scanner.scan_tokens (s : Scanner) : Except Abort (List ScannerResult) :=
  match Scanner.scan_loop (byteLen s.source + 1) s with
  | .error a => .error a
  | .ok s1 =>
    .ok (s1.tokens ++
      [.Token { token_type := .Eof, lexeme := "", line := s1.line, value := none }])

/-- Scan a source text, as `Scanner::new(source).scan_tokens()`. -/
def scan (src : String) : Except Abort (List ScannerResult) :=
  (Scanner.new src.data).scan_tokens

/-- Expression from src/expr.rs lines 51-104: the four node structs collapsed
into constructors (Binary lines 69-73, Grouping lines 81-83, Literal lines
85-87, Unary lines 95-98). -/
inductive Expression where
  | Binary (left : Expression) (op : Token) (right : Expression)
  | Grouping (expr : Expression)
  | Literal (value : Literal)
  | Unary (op : Token) (right : Expression)
deriving DecidableEq

/-- AstPrinter (src/expr.rs lines 14-45): Binary and Unary print the operator
token (its lexeme, the exact operator text) prefix-style; Grouping prints
`(group inner)`; Literal prints the value's Display form. -/
def AstPrinter.print : Expression → String
  | .Binary l op r =>
    "(" ++ op.lexeme ++ " " ++ AstPrinter.print l ++ " " ++ AstPrinter.print r ++ ")"
  | .Grouping e => "(group " ++ AstPrinter.print e ++ ")"
  | .Literal v => v.display
  | .Unary op r => "(" ++ op.lexeme ++ " " ++ AstPrinter.print r ++ ")"

/-- Parser from src/parser.rs lines 6-9. -/
structure Parser where
  tokens : List Token
  current : Nat
deriving DecidableEq

/-- Parser::new (lines 12-14). -/
def Parser.new (tokens : List Token) : Parser := { tokens := tokens, current := 0 }

/-- Parser::next (lines 16-19): `current += 1; tokens.get(current - 1)`. -/
def Parser.next (p : Parser) : Option Token × Parser :=
  (p.tokens.get? p.current, { p with current := p.current + 1 })

/-- Parser::peek (lines 21-23). -/
def Parser.peek (p : Parser) : Option Token := p.tokens.get? p.current

/-- Parser::match_token (lines 98-102): true when the current token exists and
its type is `type1` or `type2`. -/
def Parser.match_token (p : Parser) (type1 type2 : TokenType) : Bool :=
  (p.peek.map (fun t => decide (t.token_type = type1) || decide (t.token_type = type2))).getD
    false

/- The recursive-descent functions (src/parser.rs lines 25-96).  Rust's
mutual recursion is encoded by iterating a step functional: `ParseFns` packs
one field per parser method (plus one per `while` loop, which folds the left
operand exactly as the Rust loop body does), `parseFnsSucc` gives each body
verbatim with recursive calls taken from the previous iterate, and `parseFns
fuel` iterates from the all-`fuel`-abort base.  The bound is consumed once
per call; the bounds supplied at every use exceed the maximal possible call
depth, so `Abort.fuel` is unreachable (see `Abort.fuel`). -/

/-- One field per method of impl Parser (src/parser.rs lines 25-96). -/
structure ParseFns where
  expression : Parser → Except Abort (Expression × Parser)
  equality : Parser → Except Abort (Expression × Parser)
  equality_loop : Expression → Parser → Except Abort (Expression × Parser)
  comparison : Parser → Except Abort (Expression × Parser)
  comparison_loop : Expression → Parser → Except Abort (Expression × Parser)
  term : Parser → Except Abort (Expression × Parser)
  term_loop : Expression → Parser → Except Abort (Expression × Parser)
  factor : Parser → Except Abort (Expression × Parser)
  factor_loop : Expression → Parser → Except Abort (Expression × Parser)
  unary : Parser → Except Abort (Expression × Parser)
  primary : Parser → Except Abort (Expression × Parser)

/-- Exhausted recursion bound: every entry aborts with `Abort.fuel`. -/
def parseFnsZero : ParseFns where
  expression _ := .error .fuel
  equality _ := .error .fuel
  equality_loop _ _ := .error .fuel
  comparison _ := .error .fuel
  comparison_loop _ _ := .error .fuel
  term _ := .error .fuel
  term_loop _ _ := .error .fuel
  factor _ := .error .fuel
  factor_loop _ _ := .error .fuel
  unary _ := .error .fuel
  primary _ := .error .fuel

/-- One step of the recursion: each body is the Rust method, with recursive
calls taken from `f`. -/
def parseFnsSucc (f : ParseFns) : ParseFns where
  /- Parser::expression (lines 25-27). -/
  expression p := f.equality p
  /- Parser::equality (lines 29-37). -/
  equality p :=
    match f.comparison p with
    | .error a => .error a
    | .ok (e, p1) => f.equality_loop e p1
  /- the while loop of Parser::equality (lines 31-35).  Note it matches
     `Equal` and `BangEqual` — the single `=` token, not `==`. -/
  equality_loop e p :=
    if p.match_token .Equal .BangEqual then
      match p.next with
      | (none, _) => .error .unwrapNone
      | (some op, p1) =>
        match f.comparison p1 with
        | .error a => .error a
        | .ok (r, p2) => f.equality_loop (.Binary e op r) p2
    else .ok (e, p)
  /- Parser::comparison (lines 39-50). -/
  comparison p :=
    match f.term p with
    | .error a => .error a
    | .ok (e, p1) => f.comparison_loop e p1
  /- the while loop of Parser::comparison (lines 42-48): the condition is
     `match_token(Greater, GreaterEqual) || match_token(Less, LessEqual)`. -/
  comparison_loop e p :=
    if p.match_token .Greater .GreaterEqual || p.match_token .Less .LessEqual then
      match p.next with
      | (none, _) => .error .unwrapNone
      | (some op, p1) =>
        match f.term p1 with
        | .error a => .error a
        | .ok (r, p2) => f.comparison_loop (.Binary e op r) p2
    else .ok (e, p)
  /- Parser::term (lines 52-61). -/
  term p :=
    match f.factor p with
    | .error a => .error a
    | .ok (e, p1) => f.term_loop e p1
  /- the while loop of Parser::term (lines 55-59). -/
  term_loop e p :=
    if p.match_token .Minus .Plus then
      match p.next with
      | (none, _) => .error .unwrapNone
      | (some op, p1) =>
        match f.factor p1 with
        | .error a => .error a
        | .ok (r, p2) => f.term_loop (.Binary e op r) p2
    else .ok (e, p)
  /- Parser::factor (lines 63-72). -/
  factor p :=
    match f.unary p with
    | .error a => .error a
    | .ok (e, p1) => f.factor_loop e p1
  /- the while loop of Parser::factor (lines 66-70). -/
  factor_loop e p :=
    if p.match_token .Slash .Star then
      match p.next with
      | (none, _) => .error .unwrapNone
      | (some op, p1) =>
        match f.unary p1 with
        | .error a => .error a
        | .ok (r, p2) => f.factor_loop (.Binary e op r) p2
    else .ok (e, p)
  /- Parser::unary (lines 74-82): the check is `match_token(Minus, Minus)` —
     only a leading `-` (no `!`). -/
  unary p :=
    if p.match_token .Minus .Minus then
      match p.next with
      | (none, _) => .error .unwrapNone
      | (some op, p1) =>
        match f.unary p1 with
        | .error a => .error a
        | .ok (r, p2) => .ok (.Unary op r, p2)
    else f.primary p
  /- Parser::primary (lines 84-96).  In the parenthesis branch the token
     after the inner expression is consumed by `let _ = self.next().unwrap()`
     with no check that it is a `)` and no Grouping node is built; any other
     leading token hits `panic!` (`Abort.unexpectedToken`). -/
  primary p :=
    if p.match_token .LeftParen .RightParen then
      match p.next with
      | (none, _) => .error .unwrapNone
      | (some _, p1) =>
        match f.expression p1 with
        | .error a => .error a
        | .ok (e, p2) =>
          match p2.next with
          | (none, _) => .error .unwrapNone
          | (some _, p3) => .ok (e, p3)
    else if p.match_token .Number .String then
      match p.next with
      | (none, _) => .error .unwrapNone
      | (some tok, p1) =>
        match tok.value with
        | none => .error .unwrapNone
        | some v => .ok (.Literal v, p1)
    else .error .unexpectedToken

/-- The parse functions with recursion bound `fuel` (iterated by the bare
recursor so that concrete runs reduce cheaply in the kernel). -/
def parseFns (fuel : Nat) : ParseFns :=
  Nat.rec parseFnsZero (fun _ ih => parseFnsSucc ih) fuel

/-- Parser::expression (lines 25-27), at a given recursion bound. -/
def Parser.expression (fuel : Nat) (p : Parser) : Except Abort (Expression × Parser) :=
  (parseFns fuel).expression p

/-- Parser::primary (lines 84-96), at a given recursion bound. -/
def Parser.primary (fuel : Nat) (p : Parser) : Except Abort (Expression × Parser) :=
  (parseFns fuel).primary p

/-- Parser::equality (lines 29-37), at a given recursion bound. -/
def Parser.equality (fuel : Nat) (p : Parser) : Except Abort (Expression × Parser) :=
  (parseFns fuel).equality p

/-- The token filtering of the parser test (src/parser.rs lines 119-125):
keep the Token results (including EOF), drop the error records. -/
def filterTokens (rs : List ScannerResult) : List Token :=
  rs.filterMap (fun r => match r with | .Token t => some t | .Error _ => none)

/-- Scan, filter, and parse one expression, as the test at src/parser.rs lines
114-130 does.  The recursion bound `10 * (length + 1)` covers the deepest
possible descent (seven levels per consumed token) for every input this
development evaluates. -/
def parseStr (src : String) : Except Abort (Expression × Parser) :=
  match scan src with
  | .error a => .error a
  | .ok rs =>
    let ts := filterTokens rs
    Parser.expression (10 * (ts.length + 1)) (Parser.new ts)

/-- Scan, parse and pretty-print, as `AstPrinter::print(&parser.expression())`. -/
def parsePrint (src : String) : Except Abort String :=
  match parseStr src with
  | .error a => .error a
  | .ok (e, _) => .ok (AstPrinter.print e)

/-- True when the tree contains a Grouping node. -/
def Expression.hasGrouping : Expression → Bool
  | .Binary l _ r => l.hasGrouping || r.hasGrouping
  | .Grouping _ => true
  | .Literal _ => false
  | .Unary _ r => r.hasGrouping

/-- A parse outcome free of Grouping nodes (errors count as free). -/
def ngRes (r : Except Abort (Expression × Parser)) : Bool :=
  match r with
  | .ok (e, _) => !e.hasGrouping
  | .error _ => true

/-- All eleven parse functions produce Grouping-free results (the loop entries
under a Grouping-free left operand). -/
def ngFns (f : ParseFns) : Prop :=
  (∀ p, ngRes (f.expression p)) ∧
  (∀ p, ngRes (f.equality p)) ∧
  (∀ e p, e.hasGrouping = false → ngRes (f.equality_loop e p)) ∧
  (∀ p, ngRes (f.comparison p)) ∧
  (∀ e p, e.hasGrouping = false → ngRes (f.comparison_loop e p)) ∧
  (∀ p, ngRes (f.term p)) ∧
  (∀ e p, e.hasGrouping = false → ngRes (f.term_loop e p)) ∧
  (∀ p, ngRes (f.factor p)) ∧
  (∀ e p, e.hasGrouping = false → ngRes (f.factor_loop e p)) ∧
  (∀ p, ngRes (f.unary p)) ∧
  (∀ p, ngRes (f.primary p))

/-- A four-token sequence `( 1 k EOF` probing what Parser::primary does with
an arbitrary token kind `k` in the closing-parenthesis position. -/
def parenProbe (k : TokenType) : List Token :=
  [{ token_type := .LeftParen, lexeme := "(", line := 1, value := none },
   { token_type := .Number, lexeme := "1", line := 1, value := some (.Number 1) },
   { token_type := k, lexeme := "?", line := 1, value := none },
   { token_type := .Eof, lexeme := "", line := 1, value := none }]

/-- Shape of the span Scanner::scan_number consumes: one or more digits,
optionally followed by one `.` and zero or more further digits. -/
def numShape (cs : List Char) : Bool :=
  let ds := cs.takeWhile Char.isDigit
  let r := cs.drop ds.length
  !ds.isEmpty && (r.isEmpty || (decide (r.head? = some '.') && (r.drop 1).all Char.isDigit))

/-- Split a character sequence at newlines (each `'\n'` ends a line and is
part of none). -/
def linesOf (cs : List Char) : List (List Char) :=
  cs.foldr
    (fun c acc =>
      if c = '\n' then [] :: acc
      else
        match acc with
        | [] => [[c]]
        | l :: ls => (c :: l) :: ls)
    [[]]

/-- Modelled from the spec: the text of line `n` (1-based) of a source, used
to state what an offset within a line could be (claim C8's reading of
`column`). -/
def lineOfSource (src : String) (n : Nat) : String :=
  String.mk ((linesOf src.data).getD (n - 1) [])


/- ------------------------------------------------------------------ -/
/- Helper lemmas: the parser never builds a Grouping node.            -/
/- ------------------------------------------------------------------ -/

theorem parseFns_succ (n : Nat) : parseFns (n + 1) = parseFnsSucc (parseFns n) := rfl

theorem ngFns_zero : ngFns parseFnsZero := by
  refine ⟨?_, ?_, ?_, ?_, ?_, ?_, ?_, ?_, ?_, ?_, ?_⟩ <;> intros <;> rfl

theorem ngFns_succ (f : ParseFns) (h : ngFns f) : ngFns (parseFnsSucc f) := by
  obtain ⟨he, heq, heql, hc, hcl, ht, htl, hf, hfl, hu, hp⟩ := h
  refine ⟨?_, ?_, ?_, ?_, ?_, ?_, ?_, ?_, ?_, ?_, ?_⟩
  · intro p
    exact heq p
  · intro p
    simp only [parseFnsSucc]
    split
    next => rfl
    next e p1 hcp =>
      have h2 := hc p
      rw [hcp] at h2
      exact heql _ _ (by simpa [ngRes] using h2)
  · intro e p hng
    simp only [parseFnsSucc]
    split
    next hm =>
      split
      next => rfl
      next op p1 hn =>
        split
        next => rfl
        next r p2 hcp =>
          have h2 := hc p1
          rw [hcp] at h2
          refine heql _ _ ?_
          simp only [Expression.hasGrouping, hng, Bool.false_or]
          simpa [ngRes] using h2
    next hm => simpa [ngRes] using hng
  · intro p
    simp only [parseFnsSucc]
    split
    next => rfl
    next e p1 hcp =>
      have h2 := ht p
      rw [hcp] at h2
      exact hcl _ _ (by simpa [ngRes] using h2)
  · intro e p hng
    simp only [parseFnsSucc]
    split
    next hm =>
      split
      next => rfl
      next op p1 hn =>
        split
        next => rfl
        next r p2 hcp =>
          have h2 := ht p1
          rw [hcp] at h2
          refine hcl _ _ ?_
          simp only [Expression.hasGrouping, hng, Bool.false_or]
          simpa [ngRes] using h2
    next hm => simpa [ngRes] using hng
  · intro p
    simp only [parseFnsSucc]
    split
    next => rfl
    next e p1 hcp =>
      have h2 := hf p
      rw [hcp] at h2
      exact htl _ _ (by simpa [ngRes] using h2)
  · intro e p hng
    simp only [parseFnsSucc]
    split
    next hm =>
      split
      next => rfl
      next op p1 hn =>
        split
        next => rfl
        next r p2 hcp =>
          have h2 := hf p1
          rw [hcp] at h2
          refine htl _ _ ?_
          simp only [Expression.hasGrouping, hng, Bool.false_or]
          simpa [ngRes] using h2
    next hm => simpa [ngRes] using hng
  · intro p
    simp only [parseFnsSucc]
    split
    next => rfl
    next e p1 hcp =>
      have h2 := hu p
      rw [hcp] at h2
      exact hfl _ _ (by simpa [ngRes] using h2)
  · intro e p hng
    simp only [parseFnsSucc]
    split
    next hm =>
      split
      next => rfl
      next op p1 hn =>
        split
        next => rfl
        next r p2 hcp =>
          have h2 := hu p1
          rw [hcp] at h2
          refine hfl _ _ ?_
          simp only [Expression.hasGrouping, hng, Bool.false_or]
          simpa [ngRes] using h2
    next hm => simpa [ngRes] using hng
  · intro p
    simp only [parseFnsSucc]
    split
    next hm =>
      split
      next => rfl
      next op p1 hn =>
        split
        next => rfl
        next r p2 hcp =>
          have h2 := hu p1
          rw [hcp] at h2
          simp only [ngRes, Expression.hasGrouping]
          simpa [ngRes] using h2
    next hm => exact hp p
  · intro p
    simp only [parseFnsSucc]
    split
    next hm =>
      split
      next => rfl
      next tk p1 hn =>
        split
        next => rfl
        next e p2 hcp =>
          split
          next => rfl
          next tk2 p3 hn2 =>
            have h2 := he p1
            rw [hcp] at h2
            simpa [ngRes] using h2
    next hm =>
      split
      next hm2 =>
        split
        next => rfl
        next tok p1 hn =>
          split
          next => rfl
          next v hv => rfl
      next hm2 => rfl

theorem ngFns_parseFns : ∀ n, ngFns (parseFns n) := fun n =>
  Nat.rec ngFns_zero (fun _ ih => ngFns_succ _ ih) n

/- ------------------------------------------------------------------ -/
/- Claim theorems.                                                    -/
/- ------------------------------------------------------------------ -/

/-- C1 (counterexample): parsing the spec's own example `"(1 + 2) * 3"` does
NOT print as `"(* (group (+ 1 2)) 3)"` — the parenthesized sub-expression is
not preserved as a Grouping node. -/
theorem c1_grouping_counterexample :
    parsePrint "(1 + 2) * 3" ≠ .ok "(* (group (+ 1 2)) 3)" := by decide

/-- C1 (amended): the parser never produces a Grouping node at all — for
every recursion bound and every parser state, a successful parse result is
Grouping-free — and the example `"(1 + 2) * 3"` prints with the parentheses
collapsed into the inner expression, as `"(* (+ 1 2) 3)"`. -/
theorem c1_no_grouping_amended :
    (∀ (fuel : Nat) (p : Parser), ngRes (Parser.expression fuel p) = true) ∧
    parsePrint "(1 + 2) * 3" = .ok "(* (+ 1 2) 3)" :=
  ⟨fun fuel p => (ngFns_parseFns fuel).1 p, by decide⟩

/-- C2 (counterexample): parsing the spec's own example `"(1 + 2"` (missing
close paren) does not report any failure: it succeeds and returns the inner
expression, printing `"(+ 1 2)"` — the parser silently consumed the EOF
token in place of the `)`. -/
theorem c2_missing_paren_counterexample :
    parsePrint "(1 + 2" = .ok "(+ 1 2)" := by decide

/-- C2 (amended): the token following the inner expression of a parenthesized
group is consumed with no check at all: for EVERY token kind `k` that does
not extend the inner expression (i.e. every kind other than the ten binary
operator kinds), parsing `( 1 k EOF` yields exactly the same successful
result — the inner literal with three tokens consumed — whether or not `k`
is the required `)`. -/
theorem c2_silent_consume_amended (k : TokenType)
    (hk : k ∉ [TokenType.Equal, TokenType.BangEqual, TokenType.Greater,
      TokenType.GreaterEqual, TokenType.Less, TokenType.LessEqual, TokenType.Minus,
      TokenType.Plus, TokenType.Slash, TokenType.Star]) :
    Parser.expression 20 (Parser.new (parenProbe k)) =
      .ok (.Literal (.Number 1), { tokens := parenProbe k, current := 3 }) := by
  cases k <;> first | exact absurd (by decide) hk | decide

/-- C2 (witness): the amended claim at the concrete non-`)` kind `;`. -/
theorem c2_silent_consume_witness :
    Parser.expression 20 (Parser.new (parenProbe .Semicolon)) =
      .ok (.Literal (.Number 1), { tokens := parenProbe .Semicolon, current := 3 }) :=
  c2_silent_consume_amended .Semicolon (by decide)

/-- C3 (counterexample): at a primary position holding `;`, the parser does
not return a structured error value: it aborts through the `panic!` in
Parser::primary (modelled as `Abort.unexpectedToken`). -/
theorem c3_panic_counterexample :
    parseStr ";" = .error .unexpectedToken := by decide

/-- C3 (amended): for every token sequence whose next token at a primary
position is not a number, a string, or a parenthesis token, the parser
terminates via the uncatchable `panic!("Unexpected token")` abort rather
than returning a structured error value.  (A `)` also escapes the panic,
because Parser::primary enters its parenthesis branch on either paren
kind.) -/
theorem c3_panic_amended (fuel : Nat) (p : Parser) (t : Token)
    (hpeek : p.peek = some t)
    (ht : t.token_type ∉ [TokenType.LeftParen, TokenType.RightParen, TokenType.Number,
      TokenType.String]) :
    Parser.primary (fuel + 1) p = .error .unexpectedToken := by
  simp only [List.mem_cons, List.mem_singleton, not_or] at ht
  obtain ⟨h1, h2, h3, h4⟩ := ht
  show (parseFnsSucc (parseFns fuel)).primary p = .error .unexpectedToken
  have hm1 : ¬(p.match_token .LeftParen .RightParen = true) := by
    simp [Parser.match_token, hpeek, h1, h2]
  have hm2 : ¬(p.match_token .Number .String = true) := by
    simp [Parser.match_token, hpeek, h3, h4]
  simp only [parseFnsSucc]
  rw [if_neg hm1, if_neg hm2]

/-- C3 (witness): the amended claim at a concrete `;` token. -/
theorem c3_panic_witness :
    Parser.primary 5 (Parser.new
      [{ token_type := .Semicolon, lexeme := ";", line := 1, value := none },
       { token_type := .Eof, lexeme := "", line := 1, value := none }]) =
      .error .unexpectedToken :=
  c3_panic_amended 4 _
    { token_type := .Semicolon, lexeme := ";", line := 1, value := none } rfl (by decide)

/-- C4 (code bug): Parser::equality folds on `Equal`/`BangEqual`, not
`EqualEqual`/`BangEqual`.  The scanner tokenizes `"1 = 2"` with an `Equal`
token and `"1 == 2"` with an `EqualEqual` token, yet the parser builds a
Binary node for the lone `=` (printing `"(= 1 2)"`) and ignores `==`
entirely (parsing stops after the first literal, printing `"1"`), the
opposite of the `equality → comparison ( ( "==" | "!=" ) comparison )*`
grammar. -/
theorem c4_equal_token_bug :
    scan "1 = 2" = .ok
      [.Token { token_type := .Number, lexeme := "1", line := 1, value := some (.Number 1) },
       .Token { token_type := .Equal, lexeme := "=", line := 1, value := none },
       .Token { token_type := .Number, lexeme := "2", line := 1, value := some (.Number 2) },
       .Token { token_type := .Eof, lexeme := "", line := 1, value := none }] ∧
    parsePrint "1 = 2" = .ok "(= 1 2)" ∧
    scan "1 == 2" = .ok
      [.Token { token_type := .Number, lexeme := "1", line := 1, value := some (.Number 1) },
       .Token { token_type := .EqualEqual, lexeme := "==", line := 1, value := none },
       .Token { token_type := .Number, lexeme := "2", line := 1, value := some (.Number 2) },
       .Token { token_type := .Eof, lexeme := "", line := 1, value := none }] ∧
    parsePrint "1 == 2" = .ok "1" :=
  ⟨by decide, by decide, by decide, by decide⟩

/-- C5 (code bug): a line comment that reaches end of input without a newline
does not terminate the scan normally: the comment loop advances past the end
and aborts through the unwrap in Scanner::advance (`Abort.charAccess`); with
a newline present the same comment is skipped and the scan completes with
only the EOF token. -/
theorem c5_comment_eof_bug :
    scan "//" = .error .charAccess ∧
    scan "//x\n" = .ok
      [.Token { token_type := .Eof, lexeme := "", line := 2, value := none }] :=
  ⟨by decide, by decide⟩

/-- C6 (code bug): scanning is NOT safe on multi-byte characters: for the
one-character source `"¬"` (U+00AC, two UTF-8 bytes), `is_at_end` compares
the character cursor 1 with the byte length 2, so the scan loop runs again
and `chars().nth(1).unwrap()` aborts (`Abort.charAccess`); an ASCII source
of the same length scans to completion. -/
theorem c6_multibyte_bug :
    scan "¬" = .error .charAccess ∧
    scan "x" = .ok
      [.Token { token_type := .Identifier, lexeme := "x", line := 1, value := some (.Str "x") },
       .Token { token_type := .Eof, lexeme := "", line := 1, value := none }] :=
  ⟨by decide, by decide⟩

/-- C7 (counterexample): scanning `"12."` emits a NUMBER token whose lexeme is
`"12."` — it does not end at the last digit, and no separate Dot token
follows; the trailing `.` was consumed into the number. -/
theorem c7_trailing_dot_counterexample :
    scan "12." = .ok
      [.Token { token_type := .Number, lexeme := "12.", line := 1, value := some (.Number 12) },
       .Token { token_type := .Eof, lexeme := "", line := 1, value := none }] ∧
    "12." ≠ "12" :=
  ⟨by decide, by decide⟩

/-- C8 (counterexample): for source `"1\n@"` the scanner's error record for
the `@` on line 2 carries column 3, which exceeds the length (1) of its own
line — so `column` cannot be an offset within the line. -/
theorem c8_column_counterexample :
    scan "1\n@" = .ok
      [.Token { token_type := .Number, lexeme := "1", line := 1, value := some (.Number 1) },
       .Error { line := 2, column := 3,
                message := "Unexpected character " ++ String.mk [Char.ofNat 39, '@', Char.ofNat 39] },
       .Token { token_type := .Eof, lexeme := "", line := 2, value := none }] ∧
    (lineOfSource "1\n@" 2).length < 3 :=
  ⟨by decide, by decide⟩

/-- C8 (amended): the `column` of a lexical error is the scanner's absolute
character cursor (one past the offending character, counted from the start
of the whole source): Scanner::emit_error always records `current`, and the
two `@`s of `"@\n@"` — each the first character of its line — get the
distinct absolute columns 1 and 3. -/
theorem c8_column_amended :
    (∀ (s : Scanner) (message : String), (s.emit_error message).tokens =
      s.tokens ++ [.Error { line := s.line, column := s.current, message := message }]) ∧
    scan "@\n@" = .ok
      [.Error { line := 1, column := 1,
                message := "Unexpected character " ++ String.mk [Char.ofNat 39, '@', Char.ofNat 39] },
       .Error { line := 2, column := 3,
                message := "Unexpected character " ++ String.mk [Char.ofNat 39, '@', Char.ofNat 39] },
       .Token { token_type := .Eof, lexeme := "", line := 2, value := none }] :=
  ⟨fun _ _ => rfl, by decide⟩

/-- C9 (confirmed): binary operator levels parse left-associatively with the
specified precedence: `"1 - 2 - 3"` prints as `"(- (- 1 2) 3)"`, and
`"123 + 45 * 67 + 4"` scans to exactly
NUMBER(123) PLUS NUMBER(45) STAR NUMBER(67) PLUS NUMBER(4) EOF and parses
and prints as `"(+ (+ 123 (* 45 67)) 4)"`. -/
theorem c9_left_assoc_confirmed :
    parsePrint "1 - 2 - 3" = .ok "(- (- 1 2) 3)" ∧
    scan "123 + 45 * 67 + 4" = .ok
      [.Token { token_type := .Number, lexeme := "123", line := 1, value := some (.Number 123) },
       .Token { token_type := .Plus, lexeme := "+", line := 1, value := none },
       .Token { token_type := .Number, lexeme := "45", line := 1, value := some (.Number 45) },
       .Token { token_type := .Star, lexeme := "*", line := 1, value := none },
       .Token { token_type := .Number, lexeme := "67", line := 1, value := some (.Number 67) },
       .Token { token_type := .Plus, lexeme := "+", line := 1, value := none },
       .Token { token_type := .Number, lexeme := "4", line := 1, value := some (.Number 4) },
       .Token { token_type := .Eof, lexeme := "", line := 1, value := none }] ∧
    parsePrint "123 + 45 * 67 + 4" = .ok "(+ (+ 123 (* 45 67)) 4)" :=
  ⟨by decide, by decide, by decide⟩

/-- C10 (counterexample): the f64 unwrap in Scanner::scan_number CAN abort the
scan.  In `"¬ 1z"` the digit `1` sits at character index 2 but byte index 3
(the `¬` occupies two bytes), so the byte-slice `source[2..3]` taken for the
number span denotes the blank `" "`, whose f64 parse fails and the unwrap
panics (`Abort.floatParse`). -/
theorem c10_unwrap_abort_counterexample :
    scan "¬ 1z" = .error .floatParse := by decide

/- ------------------------------------------------------------------ -/
/- Helper lemmas: the scanner on ASCII sources.                       -/
/- ------------------------------------------------------------------ -/

theorem byteLen_ascii (cs : List Char) (h : ∀ c ∈ cs, c.utf8Size = 1) :
    byteLen cs = cs.length := by
  induction cs with
  | nil => rfl
  | cons c t ih =>
    have hc := h c (List.mem_cons_self c t)
    have ih2 := ih (fun x hx => h x (List.mem_cons_of_mem c hx))
    simp only [byteLen, List.map_cons, List.sum_cons, List.length_cons, hc]
    simp only [byteLen] at ih2
    omega

theorem dropBytes_ascii (cs : List Char) (h : ∀ c ∈ cs, c.utf8Size = 1) :
    ∀ a, a ≤ cs.length → dropBytes cs a = some (cs.drop a) := by
  induction cs with
  | nil =>
    intro a ha
    have ha0 : a = 0 := Nat.le_zero.mp ha
    subst ha0
    rfl
  | cons c t ih =>
    intro a ha
    cases a with
    | zero => rfl
    | succ n =>
      have hc := h c (List.mem_cons_self c t)
      have ht := fun x hx => h x (List.mem_cons_of_mem c hx)
      simp only [dropBytes, hc]
      rw [if_pos (by omega)]
      simpa using ih ht n (by simpa using ha)

theorem takeBytes_ascii (cs : List Char) (h : ∀ c ∈ cs, c.utf8Size = 1) :
    ∀ a, a ≤ cs.length → takeBytes cs a = some (cs.take a) := by
  induction cs with
  | nil =>
    intro a ha
    have ha0 : a = 0 := Nat.le_zero.mp ha
    subst ha0
    rfl
  | cons c t ih =>
    intro a ha
    cases a with
    | zero => rfl
    | succ n =>
      have hc := h c (List.mem_cons_self c t)
      have ht := fun x hx => h x (List.mem_cons_of_mem c hx)
      simp only [takeBytes, hc]
      rw [if_pos (by omega)]
      simp only [Nat.add_sub_cancel]
      rw [ih ht n (by simpa using ha)]
      rfl

theorem sliceBytes_ascii (cs : List Char) (h : ∀ c ∈ cs, c.utf8Size = 1)
    (a b : Nat) (hab : a ≤ b) (hb : b ≤ cs.length) :
    sliceBytes cs a b = some ((cs.drop a).take (b - a)) := by
  have hsub : ∀ x ∈ cs.drop a, x ∈ cs := fun x hx => List.drop_subset a cs hx
  rw [sliceBytes, if_pos hab, dropBytes_ascii cs h a (le_trans hab hb)]
  exact takeBytes_ascii _ (fun x hx => h x (hsub x hx)) _ (by rw [List.length_drop]; omega)

theorem digits_loop_spec :
    ∀ (fuel : Nat) (s : Scanner), (∀ c ∈ s.source, c.utf8Size = 1) →
    s.current ≤ s.source.length → s.source.length - s.current < fuel →
    Scanner.digits_loop fuel s =
      .ok { s with current :=
        s.current + ((s.source.drop s.current).takeWhile Char.isDigit).length } := by
  intro fuel
  induction fuel with
  | zero =>
    intro s _ _ hf
    omega
  | succ n ih =>
    intro s hA hc hf
    simp only [Scanner.digits_loop]
    by_cases hend : s.source.length ≤ s.current
    · have hT : s.is_at_end = true := by
        simp [Scanner.is_at_end, byteLen_ascii _ hA, hend]
      rw [if_pos hT]
      have hdrop : s.source.drop s.current = [] := List.drop_eq_nil_of_le hend
      simp [hdrop]
    · have hlt : s.current < s.source.length := by omega
      have hF : s.is_at_end = false := by
        simp [Scanner.is_at_end, byteLen_ascii _ hA]
        omega
      rw [hF]
      simp only [Bool.false_eq_true, if_false]
      have hget : s.source.get? s.current = some (s.source.get ⟨s.current, hlt⟩) :=
        List.get?_eq_get hlt
      rw [hget]
      change (if (s.source.get ⟨s.current, hlt⟩).isDigit = true then
        Scanner.digits_loop n { s with current := s.current + 1 }
        else Except.ok s) = _
      have hdrop : s.source.drop s.current =
          s.source.get ⟨s.current, hlt⟩ :: s.source.drop (s.current + 1) := by
        rw [List.drop_eq_getElem_cons hlt]
        rfl
      by_cases hd : (s.source.get ⟨s.current, hlt⟩).isDigit
      · rw [if_pos hd]
        rw [ih { s with current := s.current + 1 } hA (by simpa using hlt)
          (by simp only [List.length_cons]; omega)]
        rw [hdrop]
        simp only [List.takeWhile_cons, hd, if_pos, List.length_cons]
        rw [Nat.add_assoc, Nat.add_comm 1]
      · rw [if_neg hd]
        have h0 : (List.takeWhile Char.isDigit (List.drop s.current s.source)).length = 0 := by
          rw [hdrop, List.takeWhile_cons, if_neg hd]
          rfl
        rw [h0]
        rfl

theorem takeWhile_all_append (p : Char → Bool) (l1 l2 : List Char)
    (h1 : ∀ c ∈ l1, p c = true) (h2 : ∀ c, l2.head? = some c → p c = false) :
    (l1 ++ l2).takeWhile p = l1 := by
  induction l1 with
  | nil =>
    cases l2 with
    | nil => rfl
    | cons c t => simp [List.takeWhile_cons, h2 c rfl]
  | cons c t ih =>
    simp only [List.cons_append, List.takeWhile_cons, h1 c (List.mem_cons_self c t), if_true]
    rw [ih (fun x hx => h1 x (List.mem_cons_of_mem c hx))]

theorem rustParseF64_digits (d : Char) (t : List Char)
    (hall : ∀ c ∈ d :: t, c.isDigit = true) :
    (rustParseF64 (d :: t)).isSome = true := by
  have hd := hall d (List.mem_cons_self d t)
  have hplus : d ≠ '+' := fun h => by rw [h] at hd; exact absurd hd (by decide)
  have hminus : d ≠ '-' := fun h => by rw [h] at hd; exact absurd hd (by decide)
  have hip : (d :: t).takeWhile Char.isDigit = d :: t :=
    List.takeWhile_eq_self_iff.mpr (fun x hx => hall x hx)
  simp only [rustParseF64, List.head?_cons, Option.some.injEq, hplus, hminus,
    decide_False, Bool.or_self, Bool.false_or, Bool.false_eq_true, if_false, ite_false]
  rw [hip, List.drop_length]
  simp only [List.head?_nil]
  simp

theorem rustParseF64_digits_dot (d : Char) (t ds2 : List Char)
    (hall : ∀ c ∈ d :: t, c.isDigit = true) (hall2 : ∀ c ∈ ds2, c.isDigit = true) :
    (rustParseF64 ((d :: t) ++ '.' :: ds2)).isSome = true := by
  have hd := hall d (List.mem_cons_self d t)
  have hplus : d ≠ '+' := fun h => by rw [h] at hd; exact absurd hd (by decide)
  have hminus : d ≠ '-' := fun h => by rw [h] at hd; exact absurd hd (by decide)
  have hip : (d :: (t ++ '.' :: ds2)).takeWhile Char.isDigit = d :: t := by
    rw [← List.cons_append]
    exact takeWhile_all_append _ _ _ (fun x hx => hall x hx)
      (fun c hc => by
        rw [List.head?_cons, Option.some.injEq] at hc
        rw [← hc]
        decide)
  have hdrop1 : (d :: (t ++ '.' :: ds2)).drop (d :: t).length = '.' :: ds2 := by
    rw [← List.cons_append]
    exact List.drop_left _ _
  have hfp : ds2.takeWhile Char.isDigit = ds2 :=
    List.takeWhile_eq_self_iff.mpr (fun x hx => hall2 x hx)
  simp only [rustParseF64, List.cons_append, List.head?_cons, Option.some.injEq, hplus, hminus,
    decide_False, Bool.or_self, Bool.false_or, Bool.false_eq_true, if_false, ite_false]
  rw [hip, hdrop1]
  simp only [List.head?_cons, Option.some.injEq, List.drop_succ_cons, List.drop_zero,
    if_true, ite_true, eq_self_iff_true]
  rw [hfp, List.drop_length]
  simp

theorem scan_number_dot (s : Scanner) (d : Char) (t1 t2 : List Char)
    (hA : ∀ c ∈ s.source, c.utf8Size = 1)
    (hget : s.source.get? s.start = some d) (hd : d.isDigit = true)
    (hcur : s.current = s.start + 1)
    (ht1 : (s.source.drop s.current).takeWhile Char.isDigit = t1)
    (hdot : s.source.get? (s.current + t1.length) = some '.')
    (ht2 : (s.source.drop (s.current + t1.length + 1)).takeWhile Char.isDigit = t2) :
    ∃ v, Scanner.scan_number s = .ok { s with
      current := s.current + t1.length + 1 + t2.length,
      tokens := s.tokens ++
        [.Token ⟨.Number, String.mk (d :: (t1 ++ '.' :: t2)), s.line, some (.Number v)⟩] } := by
  have hstart : s.start < s.source.length := (List.get?_eq_some.mp hget).1
  have hcle : s.current ≤ s.source.length := by omega
  have hc1lt : s.current + t1.length < s.source.length := (List.get?_eq_some.mp hdot).1
  have ht2len : t2.length ≤ s.source.length - (s.current + t1.length + 1) := by
    have h0 : t2 <+: s.source.drop (s.current + t1.length + 1) := ht2 ▸ List.takeWhile_prefix _
    have h1 := h0.length_le
    rw [List.length_drop] at h1
    exact h1
  have hl1 := digits_loop_spec (s.source.length + 1) s hA hcle (by omega)
  rw [ht1] at hl1
  have hpeek : Scanner.peek { s with current := s.current + t1.length } = .ok '.' := by
    simp only [Scanner.peek, Scanner.is_at_end, byteLen_ascii _ hA, decide_eq_true_eq]
    rw [if_neg (by omega)]
    rw [hdot]
  have hadv : Scanner.advance { s with current := s.current + t1.length } =
      .ok ('.', { s with current := s.current + t1.length + 1 }) := by
    simp only [Scanner.advance]
    rw [hdot]
  have hl2 := digits_loop_spec (s.source.length + 1)
    { s with current := s.current + t1.length + 1 } hA (by simp only []; omega)
    (by simp only []; omega)
  simp only [] at hl2
  rw [ht2] at hl2
  have e1 : s.source.drop s.current = t1 ++ (s.source.drop s.current).dropWhile Char.isDigit := by
    conv_lhs => rw [← List.takeWhile_append_dropWhile Char.isDigit (s.source.drop s.current)]
    rw [ht1]
  have e2 : s.source.drop (s.current + t1.length) =
      (s.source.drop s.current).dropWhile Char.isDigit := by
    rw [← List.drop_drop]
    conv_lhs => rw [e1]
    rw [List.drop_left]
  have e3 : s.source.drop (s.current + t1.length) =
      '.' :: s.source.drop (s.current + t1.length + 1) := by
    rw [List.drop_eq_getElem_cons hc1lt]
    have hg2 := hdot
    rw [List.get?_eq_getElem?] at hg2
    rw [List.getElem?_eq_getElem hc1lt] at hg2
    simp only [Option.some.injEq] at hg2
    rw [hg2]
  have e4 : s.source.drop (s.current + t1.length + 1) =
      t2 ++ (s.source.drop (s.current + t1.length + 1)).dropWhile Char.isDigit := by
    conv_lhs => rw [← List.takeWhile_append_dropWhile Char.isDigit
      (s.source.drop (s.current + t1.length + 1))]
    rw [ht2]
  have hsplit : s.source.drop s.current =
      t1 ++ '.' :: (t2 ++ (s.source.drop (s.current + t1.length + 1)).dropWhile Char.isDigit) := by
    rw [e1, ← e2, e3]
    conv_lhs => rw [e4]
  have hdropst : s.source.drop s.start = d :: s.source.drop s.current := by
    rw [List.drop_eq_getElem_cons hstart]
    have hg2 := hget
    rw [List.get?_eq_getElem?] at hg2
    rw [List.getElem?_eq_getElem hstart] at hg2
    simp only [Option.some.injEq] at hg2
    rw [hg2, hcur]
  have htake : (d :: (t1 ++ '.' :: (t2 ++
      (s.source.drop (s.current + t1.length + 1)).dropWhile Char.isDigit))).take
        (t1.length + (t2.length + 1) + 1) = d :: (t1 ++ '.' :: t2) := by
    rw [List.take_succ_cons]
    congr 1
    rw [List.take_append]
    congr 1
    rw [List.take_succ_cons]
    congr 1
    exact List.take_left _ _
  have hslice : sliceBytes s.source s.start (s.current + t1.length + 1 + t2.length) =
      some (d :: (t1 ++ '.' :: t2)) := by
    rw [sliceBytes_ascii s.source hA _ _ (by omega) (by omega), hdropst, hsplit]
    have harith : s.current + t1.length + 1 + t2.length - s.start =
        t1.length + (t2.length + 1) + 1 := by omega
    rw [harith, htake]
  have hds1 : ∀ c ∈ d :: t1, c.isDigit = true := by
    intro c hc
    rcases List.mem_cons.mp hc with h | h
    · rw [h]
      exact hd
    · exact List.mem_takeWhile_imp (ht1 ▸ h)
  have hds2 : ∀ c ∈ t2, c.isDigit = true := fun c hc => List.mem_takeWhile_imp (ht2 ▸ hc)
  obtain ⟨v, hv⟩ := Option.isSome_iff_exists.mp (rustParseF64_digits_dot d t1 t2 hds1 hds2)
  rw [List.cons_append] at hv
  refine ⟨v, ?_⟩
  have hfin : Scanner.number_finish { s with current := s.current + t1.length + 1 + t2.length } =
      Except.ok { s with
        current := s.current + t1.length + 1 + t2.length,
        tokens := s.tokens ++
          [.Token ⟨.Number, String.mk (d :: (t1 ++ '.' :: t2)), s.line, some (.Number v)⟩] } := by
    simp only [Scanner.number_finish]
    change (match sliceBytes s.source s.start (s.current + t1.length + 1 + t2.length) with
      | none => Except.error Abort.slice
      | some span =>
        match rustParseF64 span with
        | none => Except.error Abort.floatParse
        | some v2 => Scanner.emit { s with current := s.current + t1.length + 1 + t2.length }
            TokenType.Number (some (Literal.Number v2))) = _
    rw [hslice]
    change (match rustParseF64 (d :: (t1 ++ '.' :: t2)) with
      | none => Except.error Abort.floatParse
      | some v2 => Scanner.emit { s with current := s.current + t1.length + 1 + t2.length }
          TokenType.Number (some (Literal.Number v2))) = _
    rw [hv]
    change Scanner.emit { s with current := s.current + t1.length + 1 + t2.length }
      TokenType.Number (some (Literal.Number v)) = _
    simp only [Scanner.emit]
    change (match sliceBytes s.source s.start (s.current + t1.length + 1 + t2.length) with
      | none => Except.error Abort.slice
      | some lexeme => Except.ok { s with
          current := s.current + t1.length + 1 + t2.length,
          tokens := s.tokens ++
            [ScannerResult.Token
              ⟨TokenType.Number, String.mk lexeme, s.line, some (Literal.Number v)⟩] }) = _
    rw [hslice]
  rw [← hfin]
  simp only [Scanner.scan_number]
  rw [hl1]
  change (match Scanner.peek { s with current := s.current + t1.length } with
    | Except.error a => Except.error a
    | Except.ok c =>
      if c = '.' then
        match Scanner.advance { s with current := s.current + t1.length } with
        | Except.error a => Except.error a
        | Except.ok (_, s2) =>
          match Scanner.digits_loop (s2.source.length + 1) s2 with
          | Except.error a => Except.error a
          | Except.ok s3 => Scanner.number_finish s3
      else Scanner.number_finish { s with current := s.current + t1.length }) = _
  rw [hpeek]
  change (if ('.' : Char) = '.' then
      match Scanner.advance { s with current := s.current + t1.length } with
      | Except.error a => Except.error a
      | Except.ok (_, s2) =>
        match Scanner.digits_loop (s2.source.length + 1) s2 with
        | Except.error a => Except.error a
        | Except.ok s3 => Scanner.number_finish s3
      else Scanner.number_finish { s with current := s.current + t1.length }) = _
  rw [if_pos rfl, hadv]
  change (match Scanner.digits_loop (s.source.length + 1)
      { s with current := s.current + t1.length + 1 } with
    | Except.error a => Except.error a
    | Except.ok s3 => Scanner.number_finish s3) = _
  rw [hl2]

theorem scan_number_nodot (s : Scanner) (d : Char) (t1 : List Char)
    (hA : ∀ c ∈ s.source, c.utf8Size = 1)
    (hget : s.source.get? s.start = some d) (hd : d.isDigit = true)
    (hcur : s.current = s.start + 1)
    (ht1 : (s.source.drop s.current).takeWhile Char.isDigit = t1)
    (hnodot : ∀ c, s.source.get? (s.current + t1.length) = some c → c ≠ '.') :
    ∃ v, Scanner.scan_number s = .ok { s with
      current := s.current + t1.length,
      tokens := s.tokens ++
        [.Token ⟨.Number, String.mk (d :: t1), s.line, some (.Number v)⟩] } := by
  have hstart : s.start < s.source.length := (List.get?_eq_some.mp hget).1
  have hcle : s.current ≤ s.source.length := by omega
  have ht1len : t1.length ≤ s.source.length - s.current := by
    have h0 : t1 <+: s.source.drop s.current := ht1 ▸ List.takeWhile_prefix _
    have h1 := h0.length_le
    rw [List.length_drop] at h1
    exact h1
  have hl1 := digits_loop_spec (s.source.length + 1) s hA hcle (by omega)
  rw [ht1] at hl1
  obtain ⟨pc, hpeek, hpne⟩ :
      ∃ pc, Scanner.peek { s with current := s.current + t1.length } = .ok pc ∧ pc ≠ '.' := by
    by_cases hend : s.source.length ≤ s.current + t1.length
    · refine ⟨Char.ofNat 0, ?_, by decide⟩
      simp only [Scanner.peek, Scanner.is_at_end, byteLen_ascii _ hA, decide_eq_true_eq]
      rw [if_pos hend]
    · have hlt : s.current + t1.length < s.source.length := by omega
      have hg : s.source.get? (s.current + t1.length) =
          some (s.source.get ⟨s.current + t1.length, hlt⟩) := List.get?_eq_get hlt
      refine ⟨s.source.get ⟨s.current + t1.length, hlt⟩, ?_, hnodot _ hg⟩
      simp only [Scanner.peek, Scanner.is_at_end, byteLen_ascii _ hA, decide_eq_true_eq]
      rw [if_neg (by omega), hg]
  have hdropst : s.source.drop s.start = d :: s.source.drop s.current := by
    rw [List.drop_eq_getElem_cons hstart]
    have hg2 := hget
    rw [List.get?_eq_getElem?] at hg2
    rw [List.getElem?_eq_getElem hstart] at hg2
    simp only [Option.some.injEq] at hg2
    rw [hg2, hcur]
  have htakepre : (s.source.drop s.current).take t1.length = t1 :=
    (List.prefix_iff_eq_take.mp (ht1 ▸ List.takeWhile_prefix _)).symm
  have hslice : sliceBytes s.source s.start (s.current + t1.length) = some (d :: t1) := by
    rw [sliceBytes_ascii s.source hA _ _ (by omega) (by omega), hdropst]
    have harith : s.current + t1.length - s.start = t1.length + 1 := by omega
    rw [harith, List.take_succ_cons, htakepre]
  have hds1 : ∀ c ∈ d :: t1, c.isDigit = true := by
    intro c hc
    rcases List.mem_cons.mp hc with h | h
    · rw [h]
      exact hd
    · exact List.mem_takeWhile_imp (ht1 ▸ h)
  obtain ⟨v, hv⟩ := Option.isSome_iff_exists.mp (rustParseF64_digits d t1 hds1)
  refine ⟨v, ?_⟩
  have hfin : Scanner.number_finish { s with current := s.current + t1.length } =
      Except.ok { s with
        current := s.current + t1.length,
        tokens := s.tokens ++
          [.Token ⟨.Number, String.mk (d :: t1), s.line, some (.Number v)⟩] } := by
    simp only [Scanner.number_finish]
    change (match sliceBytes s.source s.start (s.current + t1.length) with
      | none => Except.error Abort.slice
      | some span =>
        match rustParseF64 span with
        | none => Except.error Abort.floatParse
        | some v2 => Scanner.emit { s with current := s.current + t1.length }
            TokenType.Number (some (Literal.Number v2))) = _
    rw [hslice]
    change (match rustParseF64 (d :: t1) with
      | none => Except.error Abort.floatParse
      | some v2 => Scanner.emit { s with current := s.current + t1.length }
          TokenType.Number (some (Literal.Number v2))) = _
    rw [hv]
    change Scanner.emit { s with current := s.current + t1.length }
      TokenType.Number (some (Literal.Number v)) = _
    simp only [Scanner.emit]
    change (match sliceBytes s.source s.start (s.current + t1.length) with
      | none => Except.error Abort.slice
      | some lexeme => Except.ok { s with
          current := s.current + t1.length,
          tokens := s.tokens ++
            [ScannerResult.Token
              ⟨TokenType.Number, String.mk lexeme, s.line, some (Literal.Number v)⟩] }) = _
    rw [hslice]
  rw [← hfin]
  simp only [Scanner.scan_number]
  rw [hl1]
  change (match Scanner.peek { s with current := s.current + t1.length } with
    | Except.error a => Except.error a
    | Except.ok c =>
      if c = '.' then
        match Scanner.advance { s with current := s.current + t1.length } with
        | Except.error a => Except.error a
        | Except.ok (_, s2) =>
          match Scanner.digits_loop (s2.source.length + 1) s2 with
          | Except.error a => Except.error a
          | Except.ok s3 => Scanner.number_finish s3
      else Scanner.number_finish { s with current := s.current + t1.length }) = _
  rw [hpeek]
  change (if pc = '.' then
      match Scanner.advance { s with current := s.current + t1.length } with
      | Except.error a => Except.error a
      | Except.ok (_, s2) =>
        match Scanner.digits_loop (s2.source.length + 1) s2 with
        | Except.error a => Except.error a
        | Except.ok s3 => Scanner.number_finish s3
      else Scanner.number_finish { s with current := s.current + t1.length }) = _
  rw [if_neg hpne]

/-- C7 (amended): when a digit run is followed by `.` and then a non-digit (or
end of input), the trailing `.` IS consumed as part of the number: the cursor
advances past the dot and the single emitted NUMBER token's lexeme ends with
the `.`; no separate Dot token is produced by this call.  (Stated for sources
whose characters are ASCII, where Rust's byte indices agree with character
indices; a multi-byte character elsewhere in the source aborts the scan
independently, see C6.) -/
theorem c7_trailing_dot_amended (s : Scanner) (d : Char) (ds rest : List Char)
    (hA : ∀ c ∈ s.source, c.utf8Size = 1)
    (hget : s.source.get? s.start = some d) (hd : d.isDigit = true)
    (hcur : s.current = s.start + 1)
    (hdrop : s.source.drop s.current = ds ++ '.' :: rest)
    (hds : ∀ c ∈ ds, c.isDigit = true)
    (hrest : ∀ c, rest.head? = some c → c.isDigit = false) :
    ∃ v, Scanner.scan_number s = .ok { s with
      current := s.current + ds.length + 1,
      tokens := s.tokens ++
        [.Token ⟨.Number, String.mk (d :: (ds ++ ['.'])), s.line, some (.Number v)⟩] } := by
  have ht1 : (s.source.drop s.current).takeWhile Char.isDigit = ds := by
    rw [hdrop]
    exact takeWhile_all_append _ _ _ hds
      (fun c hc => by
        rw [List.head?_cons, Option.some.injEq] at hc
        rw [← hc]
        decide)
  have hdot : s.source.get? (s.current + ds.length) = some '.' := by
    have h0 : (s.source.drop s.current).get? ds.length = some '.' := by
      rw [hdrop, List.get?_append_right (le_refl ds.length)]
      simp
    rw [List.get?_drop] at h0
    exact h0
  have hr : s.source.drop (s.current + ds.length + 1) = rest := by
    rw [← List.drop_drop, ← List.drop_drop]
    conv_lhs => rw [hdrop]
    rw [List.drop_left]
    rfl
  have ht2 : (s.source.drop (s.current + ds.length + 1)).takeWhile Char.isDigit = [] := by
    rw [hr]
    cases rest with
    | nil => rfl
    | cons c t =>
      rw [List.takeWhile_cons, if_neg (by simp [hrest c rfl])]
  obtain ⟨v, hv⟩ := scan_number_dot s d ds [] hA hget hd hcur ht1 hdot ht2
  refine ⟨v, ?_⟩
  simpa using hv

/-- C10 (amended): on ASCII sources (byte and character positions agree),
whenever the scanner enters the number branch having just consumed a leading
ASCII digit, scan_number terminates normally — the f64 parse succeeds and its
unwrap cannot abort — emitting one NUMBER token whose lexeme has the shape
one-or-more digits, optionally followed by `.` and zero or more further
digits.  (Without the ASCII restriction the unwrap CAN abort; see the
counterexample.) -/
theorem c10_number_span_amended (s : Scanner) (d : Char)
    (hA : ∀ c ∈ s.source, c.utf8Size = 1)
    (hget : s.source.get? s.start = some d) (hd : d.isDigit = true)
    (hcur : s.current = s.start + 1) :
    ∃ s2 lex v, Scanner.scan_number s = .ok s2 ∧
      s2.tokens = s.tokens ++ [.Token ⟨.Number, lex, s.line, some (.Number v)⟩] ∧
      numShape lex.data = true := by
  set t1 := (s.source.drop s.current).takeWhile Char.isDigit with ht1
  have hallt1 : ∀ c ∈ t1, c.isDigit = true := fun c hc => List.mem_takeWhile_imp (ht1 ▸ hc)
  have hall1 : ∀ c ∈ d :: t1, c.isDigit = true := by
    intro c hc
    rcases List.mem_cons.mp hc with h | h
    · rw [h]
      exact hd
    · exact hallt1 c h
  by_cases hdot : s.source.get? (s.current + t1.length) = some '.'
  · set t2 := (s.source.drop (s.current + t1.length + 1)).takeWhile Char.isDigit with ht2
    have hallt2 : ∀ c ∈ t2, c.isDigit = true := fun c hc => List.mem_takeWhile_imp (ht2 ▸ hc)
    obtain ⟨v, hv⟩ := scan_number_dot s d t1 t2 hA hget hd hcur ht1.symm hdot ht2.symm
    refine ⟨_, _, v, hv, rfl, ?_⟩
    show numShape (d :: (t1 ++ '.' :: t2)) = true
    have h1 : (d :: (t1 ++ '.' :: t2)).takeWhile Char.isDigit = d :: t1 := by
      rw [← List.cons_append]
      exact takeWhile_all_append _ _ _ hall1
        (fun c hc => by
          rw [List.head?_cons, Option.some.injEq] at hc
          rw [← hc]
          decide)
    have h2 : (d :: (t1 ++ '.' :: t2)).drop (t1.length + 1) = '.' :: t2 := by
      rw [List.drop_succ_cons, List.drop_left]
    simp only [numShape, h1, List.length_cons, h2]
    simp only [List.isEmpty_cons, Bool.not_false, List.head?_cons, Option.some.injEq,
      List.drop_succ_cons, List.drop_zero, Bool.true_and]
    simp only [Bool.false_or, decide_True, Bool.true_and, List.all_eq_true]
    exact hallt2
  · have hnodot : ∀ c, s.source.get? (s.current + t1.length) = some c → c ≠ '.' := by
      intro c hc he
      rw [he] at hc
      exact hdot hc
    obtain ⟨v, hv⟩ := scan_number_nodot s d t1 hA hget hd hcur ht1.symm hnodot
    refine ⟨_, _, v, hv, rfl, ?_⟩
    show numShape (d :: t1) = true
    have h1 : (d :: t1).takeWhile Char.isDigit = d :: t1 :=
      List.takeWhile_eq_self_iff.mpr (fun x hx => hall1 x hx)
    simp [numShape, h1, List.drop_length]

/-- C7 (witness): the amended claim at the concrete number scan of `"12."`
entered just past the leading `1`. -/
theorem c7_trailing_dot_witness :
    ∃ v, Scanner.scan_number ⟨"12.".data, 1, 1, 0, []⟩ = .ok
      ⟨"12.".data, 3, 1, 0, [.Token ⟨.Number, "12.", 1, some (.Number v)⟩]⟩ :=
  c7_trailing_dot_amended ⟨"12.".data, 1, 1, 0, []⟩ '1' ['2'] []
    (by decide) (by decide) (by decide) rfl (by decide) (by decide)
    (fun c hc => nomatch hc)

/-- C10 (witness): the amended claim at the concrete number scan of `"12."`
entered just past the leading `1`. -/
theorem c10_number_span_witness :
    ∃ s2 lex v, Scanner.scan_number ⟨"12.".data, 1, 1, 0, []⟩ = .ok s2 ∧
      s2.tokens = [.Token ⟨.Number, lex, 1, some (.Number v)⟩] ∧
      numShape lex.data = true :=
  c10_number_span_amended ⟨"12.".data, 1, 1, 0, []⟩ '1'
    (by decide) (by decide) (by decide) rfl
